import Mathlib

/-!
Shallow embedding of the `app.py` dashboard core: dataset loading and
normalization, the cascading filter selectors, and the
filter/aggregate/merge pipeline, together with proofs of its specified
properties.

Dataframes are modelled as lists of records; timestamps as integer hour
counts since the epoch; trade dates as day counts since 1970-01-01;
volumes as exact rationals.  `pandas` group-by (which sorts by the group
keys and aggregates over the distinct keys) and `merge` (left/right
joins on the 지역 column) are modelled on lists.
-/

/-- Civil-calendar conversion from a day count since 1970-01-01 to
(year, month, day); this is the calendar arithmetic behind
`pandas.to_datetime(...).dt.month` / `.dt.day`. -/
def civilFromDays (z0 : Int) : Int × Int × Int :=
  let z := z0 + 719468
  let era := Int.fdiv z 146097
  let doe := z - era * 146097
  let yoe := Int.fdiv (doe - Int.fdiv doe 1460 + Int.fdiv doe 36524 - Int.fdiv doe 146096) 365
  let y := yoe + era * 400
  let doy := doe - (365 * yoe + Int.fdiv yoe 4 - Int.fdiv yoe 100)
  let mp := Int.fdiv (5 * doy + 2) 153
  let d := doy - Int.fdiv (153 * mp + 2) 5 + 1
  let m := if mp < 10 then mp + 3 else mp - 9
  (if m ≤ 2 then y + 1 else y, m, d)

/-- Month of a trade date given as a day count. -/
def dateMonth (d : Nat) : Int := (civilFromDays (d : Int)).2.1

/-- Day-of-month of a trade date given as a day count. -/
def dateDay (d : Nat) : Int := (civilFromDays (d : Int)).2.2

/-- One row of the source CSV: 거래일자 (trade date, as a day count since
1970-01-01), 거래시간 (1-based trade hour index), 지역 (region), 연료원
(fuel type), and 전력거래량(MWh) (traded volume). -/
structure RawRow where
  tradeDate : Nat
  tradeHour : Int
  region : String
  fuel : String
  volume : ℚ
deriving DecidableEq, Repr

/-- A loaded dataframe row, after `load_data` added the derived columns
시간 (timestamp, in hours since the epoch), 월 (month), 일 (day) and 시
(hour); the raw columns are retained, as in the pandas frame. -/
structure Row where
  tradeDate : Nat
  tradeHour : Int
  region : String
  fuel : String
  volume : ℚ
  timestamp : Int
  month : Int
  day : Int
  hour : Int
deriving DecidableEq, Repr

/-- The hard-coded 지역명 정규화 table of `app.py`. -/
def region_mapping : List (String × String) :=
  [("서울시", "서울특별시"),
   ("부산시", "부산광역시"),
   ("대구시", "대구광역시"),
   ("인천시", "인천광역시"),
   ("광주시", "광주광역시"),
   ("대전시", "대전광역시"),
   ("울산시", "울산광역시"),
   ("세종시", "세종특별자치시"),
   ("제주", "제주특별자치도"),
   ("제주도", "제주특별자치도")]

/-- `dict`-style replacement of one value through an association list,
modelling what `Series.replace(region_mapping)` does to a single cell. -/
def applyMapping : List (String × String) → String → String
  | [], s => s
  | (k, v) :: rest, s => if s = k then v else applyMapping rest s

/-- Normalization of one raw region value by `region_mapping`. -/
def normalizeRegion (s : String) : String := applyMapping region_mapping s

/-- The column-derivation step of `load_data`: 시간 from 거래일자 and the
1-based 거래시간, then 월/일/시 from 시간. -/
def enrich (r : RawRow) : Row :=
  let ts : Int := 24 * (r.tradeDate : Int) + (r.tradeHour - 1)
  let c := civilFromDays (ts / 24)
  { tradeDate := r.tradeDate, tradeHour := r.tradeHour, region := r.region,
    fuel := r.fuel, volume := r.volume, timestamp := ts,
    month := c.2.1, day := c.2.2, hour := ts % 24 }

/-- `load_data` minus the file I/O: derive 시간/월/일/시, drop the rows
whose 지역 is in `["육지"]`, then normalize the region names. -/
def load_data (input : List RawRow) : List Row :=
  ((input.map enrich).filter (fun r => decide (r.region ∉ ["육지"]))).map
    (fun r => { r with region := normalizeRegion r.region })

/-- Ordered insertion, the auxiliary step of `sortLE`. -/
def insertLE (le : α → α → Bool) (x : α) : List α → List α
  | [] => [x]
  | y :: ys => if le x y then x :: y :: ys else y :: insertLE le x ys

/-- Sorting by a comparator, as Python's `sorted`. -/
def sortLE (le : α → α → Bool) (l : List α) : List α :=
  l.foldr (insertLE le) []

/-- `sorted(column.unique())`: the distinct values of a column in sorted
order, as pandas `unique` plus `sorted` (and as `groupby` orders its keys). -/
def uniqueSorted [DecidableEq α] (le : α → α → Bool) (l : List α) : List α :=
  sortLE le l.dedup

/-- Lexicographic comparison of code-point sequences. -/
def natListLE : List Nat → List Nat → Bool
  | [], _ => true
  | _ :: _, [] => false
  | x :: xs, y :: ys => if x < y then true else if y < x then false else natListLE xs ys

/-- Comparator for sorting region names: code-point lexicographic order,
as Python compares strings. -/
def strLE (a b : String) : Bool :=
  natListLE (a.data.map Char.toNat) (b.data.map Char.toNat)

/-- Comparator for sorting months/days/hours. -/
def intLE (a b : Int) : Bool := decide (a ≤ b)

/-- Lexicographic comparator for sorting (시, 지역) group keys. -/
def hrLE (a b : Int × String) : Bool :=
  decide (a.1 < b.1) || (decide (a.1 = b.1) && strLE a.2 b.2)

/-- `all_regions`: the sorted distinct 지역 values of the loaded dataframe. -/
def all_regions (df : List Row) : List String :=
  uniqueSorted strLE (df.map (·.region))

/-- The four dashboard selections; `none` is the 합계 (aggregate) choice. -/
structure Filters where
  month : Option Int
  day : Option Int
  hour : Option Int
  source : Option String
deriving DecidableEq, Repr

/-- The filtering block of `main`: each concrete selection contributes one
equality predicate; 합계 selections are skipped. -/
def filterRows (df : List Row) (f : Filters) : List Row :=
  let d1 := match f.month with
    | none => df
    | some m => df.filter (fun r => decide (r.month = m))
  let d2 := match f.day with
    | none => d1
    | some d => d1.filter (fun r => decide (r.day = d))
  let d3 := match f.hour with
    | none => d2
    | some h => d2.filter (fun r => decide (r.hour = h))
  match f.source with
  | none => d3
  | some s => d3.filter (fun r => decide (r.fuel = s))

/-- Sum of the 전력거래량(MWh) column. -/
def sumVol (rows : List Row) : ℚ := (rows.map (·.volume)).sum

/-- `dff.groupby("지역")["전력거래량(MWh)"].sum().reset_index()`: one row per
distinct 지역 (sorted), carrying the summed volume. -/
def groupSumByRegion (rows : List Row) : List (String × ℚ) :=
  (uniqueSorted strLE (rows.map (·.region))).map
    (fun k => (k, sumVol (rows.filter (fun r => decide (r.region = k)))))

/-- `pd.merge(all_regions, tbl, on="지역", how="left").fillna(0)`: every key
of the left list produces its matching right rows, or a single 0-filled row
when there is no match. -/
def leftMergeFill (keys : List String) (tbl : List (String × ℚ)) : List (String × ℚ) :=
  keys.flatMap (fun k =>
    let ms := tbl.filter (fun p => decide (p.1 = k))
    if ms.isEmpty then [(k, 0)] else ms)

/-- View (a), the heatmap table `df_map`. -/
def df_map (df : List Row) (f : Filters) : List (String × ℚ) :=
  leftMergeFill (all_regions df) (groupSumByRegion (filterRows df f))

/-- `dff.groupby(["시","지역"])["전력거래량(MWh)"].sum().reset_index()`: one
row per distinct (시, 지역) pair, sorted lexicographically. -/
def groupSumByHourRegion (rows : List Row) : List (Int × String × ℚ) :=
  (uniqueSorted hrLE (rows.map (fun r => (r.hour, r.region)))).map
    (fun k => (k.1, k.2, sumVol (rows.filter (fun r => decide (r.hour = k.1 ∧ r.region = k.2)))))

/-- `pd.merge(all_regions, tbl, on="지역", how="right").fillna(0)`: all rows
of the right table are kept, in order, one copy per matching left key (or
one unmatched copy); the left table consists of the join key only, so the
`fillna` has nothing to fill. -/
def rightMergeRegions (keys : List String) (tbl : List (Int × String × ℚ)) :
    List (Int × String × ℚ) :=
  tbl.flatMap (fun row =>
    let ms := keys.filter (fun k => decide (k = row.2.1))
    if ms.isEmpty then [row] else ms.map (fun _ => row))

/-- View (c), the animation table `df_anim`; it is computed only when the 시
selection is 합계 (`none`). -/
def df_anim (df : List Row) (f : Filters) : Option (List (Int × String × ℚ)) :=
  if f.hour = none then
    some (rightMergeRegions (all_regions df) (groupSumByHourRegion (filterRows df f)))
  else none

/-- `sorted(df["월"].unique())`. -/
def month_options (df : List Row) : List Int :=
  uniqueSorted intLE (df.map (·.month))

/-- `sorted(df[df["월"] == m]["일"].unique())`. -/
def day_options (df : List Row) (m : Int) : List Int :=
  uniqueSorted intLE ((df.filter (fun r => decide (r.month = m))).map (·.day))

/-- `sorted(df[(df["월"] == m) & (df["일"] == d)]["시"].unique())`. -/
def hour_options (df : List Row) (m d : Int) : List Int :=
  uniqueSorted intLE ((df.filter (fun r => decide (r.month = m ∧ r.day = d))).map (·.hour))

/-- The 일 selectbox logic of `main`: forced to 합계 (`none`) when the month
selection is 합계, otherwise the user (`pick`) chooses from 합계 plus the
day options recomputed for the currently selected month. -/
def day_selection (df : List Row) (msel : Option Int)
    (pick : List (Option Int) → Option Int) : Option Int :=
  match msel with
  | none => none
  | some m => pick (none :: (day_options df m).map some)

/-- The 시 selectbox logic of `main`: forced to 합계 (`none`) when the month
or the day selection is 합계, otherwise the user (`pick`) chooses from 합계
plus the hour options recomputed for the selected month and day. -/
def hour_selection (df : List Row) (msel dsel : Option Int)
    (pick : List (Option Int) → Option Int) : Option Int :=
  match msel, dsel with
  | none, _ => none
  | some _, none => none
  | some m, some d => pick (none :: (hour_options df m d).map some)

/-- A two-row example dataset: a solar row in 서울특별시 at hour index 1 and
a wind row in 부산광역시 at hour index 2 of 2024-01-01 (day count 19723). -/
def exInput : List RawRow :=
  [{ tradeDate := 19723, tradeHour := 1, region := "서울특별시", fuel := "태양광", volume := 10 },
   { tradeDate := 19723, tradeHour := 2, region := "부산광역시", fuel := "풍력", volume := 5 }]

/-- The all-aggregate filter combination (every selection is 합계). -/
def aggFilters : Filters := { month := none, day := none, hour := none, source := none }

/-- The first row of `load_data exInput`. -/
def exRow : Row :=
  { tradeDate := 19723, tradeHour := 1, region := "서울특별시", fuel := "태양광",
    volume := 10, timestamp := 473352, month := 1, day := 1, hour := 0 }

/-- The first row of `load_data seoulInput`: the 서울시 row, normalized. -/
def seoulRow1 : Row :=
  { tradeDate := 19723, tradeHour := 1, region := "서울특별시", fuel := "태양광",
    volume := 10, timestamp := 473352, month := 1, day := 1, hour := 0 }

/-- The second row of `load_data seoulInput`. -/
def seoulRow2 : Row :=
  { tradeDate := 19723, tradeHour := 1, region := "서울특별시", fuel := "태양광",
    volume := 5, timestamp := 473352, month := 1, day := 1, hour := 0 }

/-- The spec's end-to-end example dataset: a 서울시 row of volume 10 and a
서울특별시 row of volume 5 at the same instant. -/
def seoulInput : List RawRow :=
  [{ tradeDate := 19723, tradeHour := 1, region := "서울시", fuel := "태양광", volume := 10 },
   { tradeDate := 19723, tradeHour := 1, region := "서울특별시", fuel := "태양광", volume := 5 }]

/-- The spec's end-to-end example filters: month 1, day 1, hour 합계,
source 태양광. -/
def seoulFilters : Filters :=
  { month := some 1, day := some 1, hour := none, source := some "태양광" }

/-- The per-hour zero-filling that claim C3 attributes to view (c): whenever
the view is computed, for every hour present in the grouped result and every
canonical region a row exists for that (hour, region) pair. -/
def viewCFillsAllRegions (input : List RawRow) (f : Filters) : Prop :=
  ∀ res, df_anim (load_data input) f = some res →
    ∀ h ∈ (groupSumByHourRegion (filterRows (load_data input) f)).map (fun p => p.1),
      ∀ reg ∈ all_regions (load_data input),
        ∃ p ∈ res, p.1 = h ∧ p.2.1 = reg

/-! ### Lemmas about the list-level pandas operations -/

theorem insertLE_perm (le : α → α → Bool) (x : α) (l : List α) :
    (insertLE le x l).Perm (x :: l) := by
  induction l with
  | nil => exact List.Perm.refl _
  | cons y ys ih =>
    rw [insertLE]
    by_cases h : le x y
    · rw [if_pos h]
    · rw [if_neg h]
      exact (ih.cons y).trans (List.Perm.swap x y ys)

theorem sortLE_perm (le : α → α → Bool) (l : List α) : (sortLE le l).Perm l := by
  induction l with
  | nil => exact List.Perm.refl _
  | cons x xs ih => exact (insertLE_perm le x (sortLE le xs)).trans (ih.cons x)

theorem mem_uniqueSorted [DecidableEq α] (le : α → α → Bool) (l : List α) (x : α) :
    x ∈ uniqueSorted le l ↔ x ∈ l := by
  unfold uniqueSorted
  rw [(sortLE_perm le l.dedup).mem_iff, List.mem_dedup]

theorem nodup_uniqueSorted [DecidableEq α] (le : α → α → Bool) (l : List α) :
    (uniqueSorted le l).Nodup :=
  (sortLE_perm le l.dedup).symm.nodup (List.nodup_dedup l)

theorem nodup_all_regions (df : List Row) : (all_regions df).Nodup :=
  nodup_uniqueSorted _ _

theorem sumVol_cons (r : Row) (l : List Row) : sumVol (r :: l) = r.volume + sumVol l := by
  simp [sumVol]

theorem filter_keyed_map (keys : List String) (g : String → ℚ) (k : String)
    (hnd : keys.Nodup) :
    (keys.map (fun r => (r, g r))).filter (fun p => decide (p.1 = k)) =
      if k ∈ keys then [(k, g k)] else [] := by
  induction keys with
  | nil => simp
  | cons a as ih =>
    rcases List.nodup_cons.mp hnd with ⟨ha, hnd'⟩
    simp only [List.map_cons, List.filter_cons]
    by_cases hak : a = k
    · subst hak
      simp [ih hnd', ha]
    · have hka : ¬ (k = a) := fun h => hak h.symm
      simp [hak, hka, ih hnd']

theorem leftMergeFill_eq (keys rkeys : List String) (g : String → ℚ)
    (hnd : rkeys.Nodup) (h0 : ∀ k, k ∉ rkeys → g k = 0) :
    leftMergeFill keys (rkeys.map (fun r => (r, g r))) =
      keys.map (fun k => (k, g k)) := by
  unfold leftMergeFill
  induction keys with
  | nil => simp
  | cons a as ih =>
    simp only [List.flatMap_cons, List.map_cons]
    rw [filter_keyed_map rkeys g a hnd]
    by_cases hmem : a ∈ rkeys
    · rw [if_pos hmem, ih]
      rfl
    · rw [if_neg hmem, ih]
      simp [h0 a hmem]

theorem filterRows_subset (df : List Row) (f : Filters) :
    ∀ r ∈ filterRows df f, r ∈ df := by
  intro r hr
  unfold filterRows at hr
  rcases f with ⟨fm, fd, fh, fs⟩
  dsimp at hr
  cases fm <;> cases fd <;> cases fh <;> cases fs <;>
    simp_all [List.mem_filter]

theorem region_mem_all_regions (df : List Row) (r : Row) (hr : r ∈ df) :
    r.region ∈ all_regions df :=
  (mem_uniqueSorted _ _ _).mpr (List.mem_map.mpr ⟨r, hr, rfl⟩)

theorem df_map_eq (df : List Row) (f : Filters) :
    df_map df f = (all_regions df).map
      (fun k => (k, sumVol ((filterRows df f).filter (fun r => decide (r.region = k))))) := by
  unfold df_map groupSumByRegion
  apply leftMergeFill_eq
  · exact nodup_uniqueSorted _ _
  · intro k hk
    have hnil : (filterRows df f).filter (fun r => decide (r.region = k)) = [] := by
      rw [List.filter_eq_nil_iff]
      intro r hr
      simp only [decide_eq_true_eq]
      intro hreg
      exact hk ((mem_uniqueSorted _ _ _).mpr (List.mem_map.mpr ⟨r, hr, hreg⟩))
    rw [hnil]
    rfl

theorem sumVol_filter_split (p : Row → Bool) (rows : List Row) :
    sumVol (rows.filter p) + sumVol (rows.filter (fun r => !(p r))) = sumVol rows := by
  induction rows with
  | nil => simp [sumVol]
  | cons r rs ih =>
    simp only [List.filter_cons]
    by_cases h : p r <;> simp [h, sumVol_cons] <;> linarith [ih]

theorem sum_over_keys (keys : List String) (rows : List Row)
    (hnd : keys.Nodup) (hcov : ∀ r ∈ rows, r.region ∈ keys) :
    ((keys.map (fun k => sumVol (rows.filter (fun r => decide (r.region = k))))).sum : ℚ) =
      sumVol rows := by
  induction keys generalizing rows with
  | nil =>
    have hnilr : rows = [] :=
      List.eq_nil_iff_forall_not_mem.mpr (fun r hr => by simpa using hcov r hr)
    simp [hnilr, sumVol]
  | cons a as ih =>
    rcases List.nodup_cons.mp hnd with ⟨ha, hnd'⟩
    simp only [List.map_cons, List.sum_cons]
    have hsplit := sumVol_filter_split (fun r => decide (r.region = a)) rows
    have htail : ∀ k ∈ as, rows.filter (fun r => decide (r.region = k)) =
        (rows.filter (fun r => !(decide (r.region = a)))).filter
          (fun r => decide (r.region = k)) := by
      intro k hk
      rw [List.filter_filter]
      apply List.filter_congr
      intro r _
      by_cases h : r.region = k
      · have hka : ¬ (k = a) := fun hka => ha (hka ▸ hk)
        simp [h, hka]
      · simp [h]
    rw [List.map_congr_left (fun k hk => by rw [htail k hk])]
    have hcov' : ∀ r ∈ rows.filter (fun r => !(decide (r.region = a))), r.region ∈ as := by
      intro r hr
      rcases List.mem_filter.mp hr with ⟨hrmem, hcond⟩
      rcases List.mem_cons.mp (hcov r hrmem) with h1 | h1
      · exfalso
        rw [h1] at hcond
        simp at hcond
      · exact h1
    rw [ih _ hnd' hcov']
    linarith [hsplit]

/-! ### Lemmas about the normalization table -/

theorem applyMapping_mem_values (m : List (String × String)) (s : String)
    (h : s ∈ m.map (fun p => p.1)) : applyMapping m s ∈ m.map (fun p => p.2) := by
  induction m with
  | nil => simp at h
  | cons p ps ih =>
    rcases p with ⟨k, v⟩
    rw [applyMapping]
    by_cases hsk : s = k
    · simp [hsk]
    · have hs : s ∈ ps.map (fun p => p.1) := by
        rcases List.mem_cons.mp h with h1 | h1
        · exact absurd h1 hsk
        · exact h1
      simp [hsk, ih hs]

theorem applyMapping_eq_self (m : List (String × String)) (s : String)
    (h : s ∉ m.map (fun p => p.1)) : applyMapping m s = s := by
  induction m with
  | nil => rfl
  | cons p ps ih =>
    rcases p with ⟨k, v⟩
    rw [applyMapping]
    have hsk : ¬ (s = k) := fun hsk => h (by simp [hsk])
    have hs : s ∉ ps.map (fun p => p.1) := fun hs => h (by simp [hs])
    simp [hsk, ih hs]

theorem normalizeRegion_not_key (s : String) :
    normalizeRegion s ∉ region_mapping.map (fun p => p.1) := by
  by_cases hs : s ∈ region_mapping.map (fun p => p.1)
  · have hv := applyMapping_mem_values region_mapping s hs
    have hall : ∀ v ∈ region_mapping.map (fun p => p.2),
        v ∉ region_mapping.map (fun p => p.1) := by decide
    exact hall _ hv
  · rw [normalizeRegion, applyMapping_eq_self _ _ hs]
    exact hs

theorem normalizeRegion_ne_sentinel (s : String) (hs : s ≠ "육지") :
    normalizeRegion s ≠ "육지" := by
  by_cases hk : s ∈ region_mapping.map (fun p => p.1)
  · have hv := applyMapping_mem_values region_mapping s hk
    have hall : ∀ v ∈ region_mapping.map (fun p => p.2), v ≠ "육지" := by decide
    exact hall _ hv
  · rw [normalizeRegion, applyMapping_eq_self _ _ hk]
    exact hs

/-! ### Lemmas about the right merge of view (c) -/

theorem filter_eq_singleton_of_nodup (keys : List String) (x : String)
    (hnd : keys.Nodup) (hx : x ∈ keys) :
    keys.filter (fun k => decide (k = x)) = [x] := by
  induction keys with
  | nil => cases hx
  | cons a as ih =>
    rcases List.nodup_cons.mp hnd with ⟨ha, hnd'⟩
    rw [List.filter_cons]
    by_cases hax : a = x
    · subst hax
      have hnil : as.filter (fun k => decide (k = a)) = [] := by
        rw [List.filter_eq_nil_iff]
        intro k hk
        simp only [decide_eq_true_eq]
        intro hka
        exact ha (hka ▸ hk)
      simp [hnil]
    · have hxs : x ∈ as := by
        rcases List.mem_cons.mp hx with h1 | h1
        · exact absurd h1.symm hax
        · exact h1
      simp [hax, ih hnd' hxs]

theorem rightMergeRegions_eq_self (keys : List String) (tbl : List (Int × String × ℚ))
    (hnd : keys.Nodup) (hcov : ∀ p ∈ tbl, p.2.1 ∈ keys) :
    rightMergeRegions keys tbl = tbl := by
  unfold rightMergeRegions
  induction tbl with
  | nil => rfl
  | cons p ps ih =>
    rw [List.flatMap_cons]
    have hfilter : keys.filter (fun k => decide (k = p.2.1)) = [p.2.1] :=
      filter_eq_singleton_of_nodup keys p.2.1 hnd (hcov p (List.mem_cons_self p ps))
    rw [ih (fun q hq => hcov q (List.mem_cons_of_mem _ hq))]
    simp [hfilter]

theorem grouped_region_mem (df : List Row) (f : Filters) :
    ∀ p ∈ groupSumByHourRegion (filterRows df f), p.2.1 ∈ all_regions df := by
  intro p hp
  unfold groupSumByHourRegion at hp
  rcases List.mem_map.mp hp with ⟨k, hk, hpk⟩
  rcases List.mem_map.mp ((mem_uniqueSorted _ _ _).mp hk) with ⟨r, hr, hrk⟩
  have hpr : p.2.1 = r.region := by
    rw [← hpk, ← hrk]
  rw [hpr]
  exact region_mem_all_regions _ _ (filterRows_subset _ _ r hr)

/-! ### The claims -/

/-- C1: for every loaded dataset and every combination of the four filter
selections, view (a) `df_map` has exactly one row per canonical region of
`all_regions` (which is duplicate-free), in order, and each row's volume is
the sum of 전력거래량(MWh) over the matching filtered rows for that region —
0 for a region with no matching rows, in particular when the whole filtered
subset is empty. -/
theorem C1_region_totals (input : List RawRow) (f : Filters) :
    df_map (load_data input) f =
      (all_regions (load_data input)).map
        (fun k => (k, sumVol ((filterRows (load_data input) f).filter
          (fun r => decide (r.region = k))))) ∧
    (all_regions (load_data input)).Nodup :=
  ⟨df_map_eq _ _, nodup_uniqueSorted _ _⟩

/-- C2: conservation law — for every loaded dataset and filter combination,
the volumes of view (a) sum to exactly the sum of 전력거래량(MWh) over the
filtered subset. -/
theorem C2_conservation (input : List RawRow) (f : Filters) :
    ((df_map (load_data input) f).map (fun p => p.2)).sum =
      sumVol (filterRows (load_data input) f) := by
  rw [df_map_eq, List.map_map]
  exact sum_over_keys _ _ (nodup_uniqueSorted _ _)
    (fun r hr => region_mem_all_regions _ _ (filterRows_subset _ _ r hr))

/-- C3, counterexample: on `exInput` (hours 0 and 1, regions 서울특별시 and
부산광역시) with all-aggregate filters, hour 0 is present in the grouped
result and 부산광역시 is a canonical region, yet view (c) contains no
(0, 부산광역시) row — the `how="right"` merge does not zero-fill missing
region combinations per hour. -/
theorem C3_counterexample : ¬ viewCFillsAllRegions exInput aggFilters := by
  intro hcl
  have hview : df_anim (load_data exInput) aggFilters =
      some [(0, "서울특별시", 10), (1, "부산광역시", 5)] := by
    have hmerge : rightMergeRegions (all_regions (load_data exInput))
        (groupSumByHourRegion (filterRows (load_data exInput) aggFilters)) =
        groupSumByHourRegion (filterRows (load_data exInput) aggFilters) :=
      rightMergeRegions_eq_self _ _ (nodup_all_regions _) (grouped_region_mem _ _)
    have hkeys : uniqueSorted hrLE ((filterRows (load_data exInput) aggFilters).map
        (fun r => (r.hour, r.region))) = [(0, "서울특별시"), (1, "부산광역시")] := by decide
    have hf0 : (filterRows (load_data exInput) aggFilters).filter
        (fun r => decide (r.hour = 0 ∧ r.region = "서울특별시")) =
        [{ tradeDate := 19723, tradeHour := 1, region := "서울특별시", fuel := "태양광",
           volume := 10, timestamp := 473352, month := 1, day := 1, hour := 0 }] := by decide
    have hf1 : (filterRows (load_data exInput) aggFilters).filter
        (fun r => decide (r.hour = 1 ∧ r.region = "부산광역시")) =
        [{ tradeDate := 19723, tradeHour := 2, region := "부산광역시", fuel := "풍력",
           volume := 5, timestamp := 473353, month := 1, day := 1, hour := 1 }] := by decide
    rw [df_anim, if_pos (show aggFilters.hour = none from rfl), hmerge,
      groupSumByHourRegion, hkeys]
    simp only [List.map_cons, List.map_nil, hf0, hf1, sumVol]
    norm_num
  have habs := hcl _ hview 0 (by decide) "부산광역시" (by decide)
  rcases habs with ⟨p, hp, hp0, hpreg⟩
  rcases List.mem_cons.mp hp with hp1 | hp1
  · rw [hp1] at hpreg
    exact absurd hpreg (by decide)
  · rcases List.mem_cons.mp hp1 with hp2 | hp2
    · rw [hp2] at hp0
      exact absurd hp0 (by decide)
    · exact absurd hp2 (by simp)

/-- C3, amended: view (c) is computed exactly when the hour selection is
aggregate, and it then equals precisely the (hour, region) grouped sums of
the filtered subset: the merge against `all_regions` keeps all rows from the
grouped-result side and — since `all_regions` lists every grouped region
exactly once — adds nothing, so (hour, region) combinations with no grouped
row are simply absent rather than zero-filled. -/
theorem C3_amended (input : List RawRow) (f : Filters) :
    df_anim (load_data input) f =
      if f.hour = none then
        some (groupSumByHourRegion (filterRows (load_data input) f))
      else none := by
  unfold df_anim
  by_cases hf : f.hour = none
  · rw [if_pos hf, if_pos hf,
      rightMergeRegions_eq_self _ _ (nodup_all_regions _) (grouped_region_mem _ f)]
  · rw [if_neg hf, if_neg hf]

/-- C4: every loaded row's 시간 equals the trade date (as a day count, at
24 hours each) plus (거래시간 − 1) hours exactly, and its 월/일/시 fields
are derived from that timestamp. -/
theorem C4_timestamp (input : List RawRow) :
    ∀ r ∈ load_data input,
      r.timestamp = 24 * (r.tradeDate : Int) + (r.tradeHour - 1) ∧
      r.month = (civilFromDays (r.timestamp / 24)).2.1 ∧
      r.day = (civilFromDays (r.timestamp / 24)).2.2 ∧
      r.hour = r.timestamp % 24 := by
  intro r hr
  unfold load_data at hr
  rcases List.mem_map.mp hr with ⟨r1, hr1, rfl⟩
  rcases List.mem_filter.mp hr1 with ⟨hr2, _⟩
  rcases List.mem_map.mp hr2 with ⟨r0, _, rfl⟩
  exact ⟨rfl, rfl, rfl, rfl⟩

/-- C4 witness: the first loaded row of `exInput`. -/
theorem C4_timestamp_witness :
    exRow.timestamp = 24 * (exRow.tradeDate : Int) + (exRow.tradeHour - 1) ∧
    exRow.month = (civilFromDays (exRow.timestamp / 24)).2.1 ∧
    exRow.day = (civilFromDays (exRow.timestamp / 24)).2.2 ∧
    exRow.hour = exRow.timestamp % 24 :=
  C4_timestamp exInput exRow (by decide)

/-- C5: the loader's output never contains a key of the normalization table
as a region value, so rows differing only in short versus canonical region
name aggregate together: on the spec's example dataset, a 서울시 row of
volume 10 and a 서울특별시 row of volume 5 produce the single view (a) row
(서울특별시, 15) under filters month 1, day 1, hour 합계, source 태양광. -/
theorem C5_keys_replaced :
    (∀ (input : List RawRow), ∀ r ∈ load_data input,
        r.region ∉ region_mapping.map (fun p => p.1)) ∧
    df_map (load_data seoulInput) seoulFilters = [("서울특별시", 15)] := by
  constructor
  · intro input r hr
    unfold load_data at hr
    rcases List.mem_map.mp hr with ⟨r1, _, rfl⟩
    exact normalizeRegion_not_key r1.region
  · have hload : load_data seoulInput = [seoulRow1, seoulRow2] := by decide
    have hall : all_regions (load_data seoulInput) = ["서울특별시"] := by decide
    have hfilt : filterRows [seoulRow1, seoulRow2] seoulFilters =
        [seoulRow1, seoulRow2] := by decide
    have hkeys : uniqueSorted strLE (([seoulRow1, seoulRow2] : List Row).map (·.region)) =
        ["서울특별시"] := by decide
    have hfr : ([seoulRow1, seoulRow2] : List Row).filter
        (fun r => decide (r.region = "서울특별시")) = [seoulRow1, seoulRow2] := by decide
    have hsum : sumVol [seoulRow1, seoulRow2] = 15 := by
      norm_num [sumVol, seoulRow1, seoulRow2]
    have hgrp : groupSumByRegion [seoulRow1, seoulRow2] = [("서울특별시", 15)] := by
      rw [groupSumByRegion, hkeys, List.map_cons, List.map_nil, hfr, hsum]
    unfold df_map
    rw [hall, hload, hfilt, hgrp]
    decide

/-- C5 witness: the first loaded row of the example has region 서울특별시,
which is not a key of the table. -/
theorem C5_keys_replaced_witness :
    ("서울특별시" : String) ∉ region_mapping.map (fun p => p.1) :=
  C5_keys_replaced.1 seoulInput seoulRow1 (by decide)

/-- C6: no loaded row's region is the sentinel 육지, for any input. -/
theorem C6_no_sentinel (input : List RawRow) :
    ∀ r ∈ load_data input, r.region ≠ "육지" := by
  intro r hr
  unfold load_data at hr
  rcases List.mem_map.mp hr with ⟨r1, hr1, rfl⟩
  rcases List.mem_filter.mp hr1 with ⟨_, hcond⟩
  have hne : r1.region ≠ "육지" := by
    intro he
    rw [he] at hcond
    exact absurd hcond (by decide)
  exact normalizeRegion_ne_sentinel r1.region hne

/-- C6 witness: the first loaded row of `exInput`. -/
theorem C6_no_sentinel_witness : exRow.region ≠ "육지" :=
  C6_no_sentinel exInput exRow (by decide)

/-- C7, counterexample: the normalization table has 10 entries, not 11. -/
theorem C7_counterexample : ¬ (region_mapping.length = 11) := by decide

/-- C7, amended: the fixed normalization table contains exactly 10 entries
mapping short-form names to canonical full administrative names, including
the short Seoul form and both 제주 and 제주도 mapping to the full Jeju
form. -/
theorem C7_amended :
    region_mapping.length = 10 ∧
    ("서울시", "서울특별시") ∈ region_mapping ∧
    ("제주", "제주특별자치도") ∈ region_mapping ∧
    ("제주도", "제주특별자치도") ∈ region_mapping := by decide

/-- C8: aggregate upstream selections force the downstream selections to
aggregate, concrete upstream selections offer 합계 plus the recomputed
option sets, and the option sets are exactly the distinct days (hours)
among the rows matching the current upstream selections — so no stale
option can ever be offered. -/
theorem C8_cascade (df : List Row) (m d : Int)
    (pick : List (Option Int) → Option Int) :
    day_selection df none pick = none ∧
    hour_selection df none (some d) pick = none ∧
    hour_selection df none none pick = none ∧
    hour_selection df (some m) none pick = none ∧
    day_selection df (some m) pick = pick (none :: (day_options df m).map some) ∧
    hour_selection df (some m) (some d) pick =
      pick (none :: (hour_options df m d).map some) ∧
    (∀ x : Int, x ∈ day_options df m ↔ ∃ r ∈ df, r.month = m ∧ r.day = x) ∧
    (∀ x : Int, x ∈ hour_options df m d ↔
      ∃ r ∈ df, r.month = m ∧ r.day = d ∧ r.hour = x) := by
  refine ⟨rfl, rfl, rfl, rfl, rfl, rfl, fun x => ?_, fun x => ?_⟩
  · unfold day_options
    rw [mem_uniqueSorted]
    constructor
    · intro hx
      rcases List.mem_map.mp hx with ⟨r, hr, hrx⟩
      rcases List.mem_filter.mp hr with ⟨hrdf, hcond⟩
      exact ⟨r, hrdf, by simpa using hcond, hrx⟩
    · rintro ⟨r, hr, hm, hd⟩
      exact List.mem_map.mpr ⟨r, List.mem_filter.mpr ⟨hr, by simpa using hm⟩, hd⟩
  · unfold hour_options
    rw [mem_uniqueSorted]
    constructor
    · intro hx
      rcases List.mem_map.mp hx with ⟨r, hr, hrx⟩
      rcases List.mem_filter.mp hr with ⟨hrdf, hcond⟩
      have hc := of_decide_eq_true hcond
      exact ⟨r, hrdf, hc.1, hc.2, hrx⟩
    · rintro ⟨r, hr, hm, hd, hh⟩
      exact List.mem_map.mpr ⟨r, List.mem_filter.mpr ⟨hr, by simp [hm, hd]⟩, hh⟩

/-- C9: for a trade-hour index in 1..24, the loaded row's 시 equals the
index minus 1 (hence lies in 0..23), and its 월 and 일 equal the month and
day of the trade date itself — the 1-based source hour is exposed 0-based
and never rolls the date over. -/
theorem C9_hour_zero_based (input : List RawRow) :
    ∀ r ∈ load_data input, 1 ≤ r.tradeHour → r.tradeHour ≤ 24 →
      r.hour = r.tradeHour - 1 ∧ 0 ≤ r.hour ∧ r.hour ≤ 23 ∧
      r.month = dateMonth r.tradeDate ∧ r.day = dateDay r.tradeDate := by
  intro r hr h1 h24
  unfold load_data at hr
  rcases List.mem_map.mp hr with ⟨r1, hr1, rfl⟩
  rcases List.mem_filter.mp hr1 with ⟨hr2, _⟩
  rcases List.mem_map.mp hr2 with ⟨r0, _, rfl⟩
  simp only [enrich] at h1 h24 ⊢
  have harg : (24 * (r0.tradeDate : Int) + (r0.tradeHour - 1)) / 24 =
      (r0.tradeDate : Int) := by omega
  refine ⟨by omega, by omega, by omega, ?_, ?_⟩
  · rw [harg]
    rfl
  · rw [harg]
    rfl

/-- C9 witness: the first loaded row of `exInput`, with trade-hour index 1. -/
theorem C9_hour_zero_based_witness :
    (1 ≤ exRow.tradeHour ∧ exRow.tradeHour ≤ 24) ∧
    (exRow.hour = exRow.tradeHour - 1 ∧ 0 ≤ exRow.hour ∧ exRow.hour ≤ 23 ∧
      exRow.month = dateMonth exRow.tradeDate ∧ exRow.day = dateDay exRow.tradeDate) :=
  ⟨⟨by decide, by decide⟩,
    C9_hour_zero_based exInput exRow (by decide) (by decide) (by decide)⟩

/-- C10: no canonical target value of the mapping is itself a key, so
applying the region-name replacement twice agrees with applying it once on
every string. -/
theorem C10_idempotent :
    (∀ p ∈ region_mapping, p.2 ∉ region_mapping.map (fun q => q.1)) ∧
    ∀ s : String, normalizeRegion (normalizeRegion s) = normalizeRegion s := by
  refine ⟨by decide, fun s => ?_⟩
  exact applyMapping_eq_self region_mapping (normalizeRegion s) (normalizeRegion_not_key s)

/-- C10 witness: a mapped value that is not a key, and idempotence at 제주. -/
theorem C10_idempotent_witness :
    ("부산광역시" : String) ∉ region_mapping.map (fun q => q.1) ∧
    normalizeRegion (normalizeRegion "제주") = normalizeRegion "제주" :=
  ⟨C10_idempotent.1 ("부산시", "부산광역시") (by decide), C10_idempotent.2 "제주"⟩
